import Mathlib

/-!
Verification development for the BAP service-shim framework
(`bap/shims/base.py`, `bap/shims/PlasmidFinder.py`, `bap/data.py`).

The Python code is shallowly embedded: Python dicts (which preserve
insertion order) become association lists `List (String × α)` with
first-match lookup, in-place update and append-on-new-key; Python lists
become `List`; numbers occurring in hit records become `ℚ`; functions
that raise become `Except String`; the blackboard (shared findings
store) becomes a path-keyed association list.
-/

/-! ## Python dict operations (insertion-ordered association lists) -/

/-- Python `d.get(k)` / `d.get(k, None)`: first matching key, else `none`. -/
def dictGetOpt (d : List (String × α)) (k : String) : Option α :=
  match d with
  | [] => none
  | (k', v) :: rest => if k' = k then some v else dictGetOpt rest k

/-- Python `d.get(k, default)`. -/
def dictGetD (d : List (String × α)) (k : String) (dflt : α) : α :=
  (dictGetOpt d k).getD dflt

/-- Python `d[k] = v`: update in place if the key exists, else append
(Python dicts preserve insertion order). -/
def dictSet (d : List (String × α)) (k : String) (v : α) : List (String × α) :=
  match d with
  | [] => [(k, v)]
  | (k', v') :: rest => if k' = k then (k, v) :: rest else (k', v') :: dictSet rest k v

/-! ## Python string primitives used by `parse_config` -/

/-- Character-list split on a single character, mirroring Python
`s.split(c)`: every occurrence splits, empty fields are kept. -/
def splitCharList (c : Char) : List Char → List (List Char)
  | [] => [[]]
  | x :: xs =>
    let r := splitCharList c xs
    if x = c then [] :: r
    else
      match r with
      | [] => [[x]]
      | y :: ys => (x :: y) :: ys

/-- Python `l.split('\t')`. -/
def pySplitTab (s : String) : List String :=
  (splitCharList '\t' s.data).map (fun l => (⟨l⟩ : String))

/-- Drop leading and trailing whitespace from a character list. -/
def stripList (l : List Char) : List Char :=
  (((l.dropWhile Char.isWhitespace).reverse).dropWhile Char.isWhitespace).reverse

/-- Python `s.strip()`. -/
def pyStrip (s : String) : String := ⟨stripList s.data⟩

/-- Python `s.startswith('#')`. -/
def startsHash (s : String) : Bool :=
  match s.data with
  | [] => false
  | c :: _ => c = '#'

/-! ## Config parsing (`PlasmidFinder.parse_config`)

`parse_config(db_root)` opens `<db_root>/config` and folds over its
lines; the file system access is I/O, so the embedding takes the list
of lines of that file.  A `Config` is the Python dict
`group -> [database]`. -/

abbrev Config : Type := List (String × List String)

/-- Loop body of `parse_config`: `gd` is `group_dbs`, `dbs` is
`databases` (all database names seen so far, in order). -/
def parse_lines : List String → Config → List String → Except String Config
  | [], gd, _ => .ok gd
  | l :: rest, gd, dbs =>
    let t := pyStrip l
    if t.data.isEmpty || startsHash t then parse_lines rest gd dbs
    else
      let r := pySplitTab t
      if r.length ≠ 3 then .error ("invalid database config line: " ++ t)
      else
        let db := pyStrip (r.headD "")
        if db ∈ dbs then .error ("non-unique database prefix in config: " ++ db)
        else
          let grp := pyStrip ((r.drop 1).headD "")
          parse_lines rest (dictSet gd grp (dictGetD gd grp [] ++ [db])) (dbs ++ [db])

/-- `parse_config`, over the lines of the config file. -/
def parse_config (lines : List String) : Except String Config :=
  parse_lines lines [] []

/-- The `(database, group)` pair a config line contributes, if it is a
content line (non-blank, not a comment, exactly 3 tab-separated
columns); mirrors the corresponding branches of `parse_config`. -/
def line_entry (l : String) : Option (String × String) :=
  let t := pyStrip l
  if t.data.isEmpty || startsHash t then none
  else
    let r := pySplitTab t
    if r.length ≠ 3 then none
    else some (pyStrip (r.headD ""), pyStrip ((r.drop 1).headD ""))

/-! ## Database/group resolution (`find_database`, `find_databases`) -/

/-- Python `sep.join(xs)`. -/
def pyJoin (sep : String) : List String → String
  | [] => ""
  | [x] => x
  | x :: y :: ys => x ++ sep ++ pyJoin sep (y :: ys)

/-- `pretty_list_groups`: user-friendly enumeration of the config. -/
def pretty_list_groups : Config → String
  | [] => ""
  | (k, v) :: rest => k ++ " (" ++ pyJoin ", " v ++ ");" ++ pretty_list_groups rest

/-- `a` occurs contiguously inside `b`. -/
def substrOf (a b : String) : Prop :=
  ∃ s t : List Char, s ++ a.data ++ t = b.data

/-- `find_database`: the name resolves as a group (all its databases),
else as a database inside the first group holding it, else errors
listing everything available. -/
def find_database (cfg : Config) (name : String) : Except String (String × List String) :=
  match dictGetOpt cfg name with
  | some grp_dbs => .ok (name, grp_dbs)
  | none =>
    match cfg.find? (fun p => p.2.contains name) with
    | some p => .ok (p.1, [name])
    | none => .error ("unknown group or database: " ++ name ++ "; available are: "
        ++ pretty_list_groups cfg)

/-- Loop of `find_databases`, accumulating the result dict. -/
def fd_loop (cfg : Config) : List String → Config → Except String Config
  | [], acc => .ok acc
  | n :: rest, acc =>
    match find_database cfg n with
    | .error e => .error e
    | .ok (grp, dbs) =>
      let cur := dictGetD acc grp []
      let cur := dbs.foldl (fun c db => if db ∈ c then c else c ++ [db]) cur
      fd_loop cfg rest (dictSet acc grp cur)

/-- `find_databases`: resolve each requested name (or, for an empty
request, every group of the config) and merge per group with
per-group deduplication. -/
def find_databases (cfg : Config) (names : List String) : Except String Config :=
  fd_loop cfg (if names.isEmpty then cfg.map Prod.fst else names) []

/-! ## Hit records and result normalization (`PlasmidFinder.collect_output`)

The backend's `data.json` `results` element is, when hits exist, a
dict group → dict database → dict hit-id → hit record; the backend may
instead emit a non-dict "No hits found" sentinel, and any of the inner
values may likewise be non-dicts, which the code coerces to `{}`.
Numeric JSON fields are embedded as `ℚ`. -/

/-- A raw backend hit record (the fields `collect_output` reads). -/
structure RawHit where
  plasmid : String
  hit_id : String
  contig_name : String
  positions_in_contig : String
  accession : String
  template_length : ℚ
  position_in_ref : String
  HSP_length : ℚ
  coverage : ℚ
  identity : ℚ
  note : String
deriving DecidableEq, Repr

/-- Value under a (group, database) key: a dict of hits or a non-dict. -/
inductive RawHits where
  | other
  | dict (entries : List (String × RawHit))
deriving DecidableEq, Repr

/-- Value under a group key: a dict of databases or a non-dict. -/
inductive RawDbs where
  | other
  | dict (entries : List (String × RawHits))
deriving DecidableEq, Repr

/-- The `results` element: a dict of groups, or the backend's
"No hits found" non-dict sentinel. -/
inductive RawRes where
  | other
  | dict (entries : List (String × RawDbs))
deriving DecidableEq, Repr

/-- A canonical normalized hit (`h_out` in `collect_output`). -/
structure OutHit where
  plasmid : String
  hit_id : String
  group : String
  database : String
  qry_ctg : String
  qry_pos : String
  tgt_acc : String
  tgt_len : ℚ
  tgt_pos : String
  hsp_len : ℚ
  pct_cov : ℚ
  pct_ident : ℚ
  quality : ℚ
  note : String
deriving DecidableEq, Repr

/-- One entry of a group's `searches` list. -/
structure DbRes where
  database : String
  hits : List OutHit
deriving DecidableEq, Repr

/-- One entry of the normalized `res_out` list. -/
structure GroupRes where
  group : String
  searches : List DbRes
deriving DecidableEq, Repr

/-- `dbs_in = res_in.get(grp, {})`, coercing a non-dict to `{}`. -/
def raw_group_dbs (res : RawRes) (grp : String) : List (String × RawHits) :=
  match res with
  | .other => []
  | .dict entries =>
    match dictGetOpt entries grp with
    | some (.dict dbEntries) => dbEntries
    | some .other => []
    | none => []

/-- `hits_in = dbs_in.get(db, {})` coerced to a dict, then
`hits_in.values()` (insertion order). -/
def raw_db_hits (res : RawRes) (grp db : String) : List RawHit :=
  match dictGetOpt (raw_group_dbs res grp) db with
  | some (.dict hitEntries) => hitEntries.map Prod.snd
  | some .other => []
  | none => []

/-- The field-by-field mapping from a raw hit to the canonical record
(`h_out`), with `quality = coverage * identity / 100`. -/
def mkHit (grp db : String) (hit : RawHit) : OutHit :=
  { plasmid := hit.plasmid
    hit_id := hit.hit_id
    group := grp
    database := db
    qry_ctg := hit.contig_name
    qry_pos := hit.positions_in_contig
    tgt_acc := hit.accession
    tgt_len := hit.template_length
    tgt_pos := hit.position_in_ref
    hsp_len := hit.HSP_length
    pct_cov := hit.coverage
    pct_ident := hit.identity
    quality := hit.coverage * hit.identity / 100
    note := hit.note }

/-- Ranking order used on hits: descending quality. -/
def hitGE (x y : OutHit) : Prop := y.quality ≤ x.quality

instance : DecidableRel hitGE := fun x y => inferInstanceAs (Decidable (y.quality ≤ x.quality))

instance : IsTotal OutHit hitGE := ⟨fun a b => le_total b.quality a.quality⟩

instance : IsTrans OutHit hitGE := ⟨fun _ _ _ h1 h2 => le_trans h2 h1⟩

/-- Python `hits_out.sort(key=lambda l: l['quality'], reverse=True)`:
a stable sort by descending quality.  Python's sort is stable, which
insertion sort models exactly (an element is inserted after all
earlier elements of equal quality). -/
def sortHits (l : List OutHit) : List OutHit := l.insertionSort hitGE

/-! ## The shared findings store (blackboard)

`pico.workflow.blackboard.Blackboard` is an external collaborator.
Modelled from the spec: a hierarchical key/value store addressed by
slash-separated paths with `put(path, value)` (replace) and
`append(path, value, [unique])` (grow an ordered list at `path`,
optionally rejecting duplicates).  The embedding keys a flat
association list by full path strings. -/

/-- A value held in the store. -/
inductive BVal where
  | s (v : String)
  | q (v : ℚ)
  | l (vs : List String)
  | res (rs : List GroupRes)
deriving DecidableEq, Repr

/-- The store: full path → value, insertion-ordered. -/
abbrev BB : Type := List (String × BVal)

/-- Modelled from the spec: `Blackboard.put(path, value)` (replace). -/
def bbPut (bb : BB) (path : String) (v : BVal) : BB := dictSet bb path v

/-- Modelled from the spec: `Blackboard.get(path, default)`. -/
def bbGetOpt (bb : BB) (path : String) : Option BVal := dictGetOpt bb path

/-- `get` with a (possibly absent, i.e. Python `None`) default. -/
def bbGetD (bb : BB) (path : String) (dflt : Option BVal) : Option BVal :=
  match bbGetOpt bb path with
  | some v => some v
  | none => dflt

/-- Modelled from the spec: `Blackboard.append_to(path, value)`
(grow the ordered string list at `path`). -/
def bbAppend (bb : BB) (path : String) (v : String) : BB :=
  let cur := match bbGetOpt bb path with
    | some (.l vs) => vs
    | _ => []
  bbPut bb path (.l (cur ++ [v]))

/-- Modelled from the spec: `Blackboard.append_to(path, value, True)`
(append with deduplication). -/
def bbAppendUnique (bb : BB) (path : String) (v : String) : BB :=
  let cur := match bbGetOpt bb path with
    | some (.l vs) => vs
    | _ => []
  if v ∈ cur then bb else bbPut bb path (.l (cur ++ [v]))

/-- `BAPBlackboard.add_detected_plasmid`: deduplicating append into the
pipeline summary namespace. -/
def add_detected_plasmid (bb : BB) (plasmid : String) : BB :=
  bbAppendUnique bb "bap/summary/plasmids" plasmid

/-! ## Input resolution getters (`data.py` and `shims/base.py`)

`BAPBlackboard` getters are thin wrappers around `get` with a default;
the `ServiceExecution` getters below add the raise-unless-default
behaviour.  A `none` default models Python `None`. -/

/-- `BAPBlackboard.get_user_contigs_path`. -/
def bb_get_user_contigs_path (bb : BB) (dflt : Option BVal) : Option BVal :=
  bbGetD bb "bap/user_inputs/contigs" dflt

/-- `BAPBlackboard.get_assembled_contigs_path`. -/
def bb_get_assembled_contigs_path (bb : BB) (dflt : Option BVal) : Option BVal :=
  bbGetD bb "bap/summary/contigs" dflt

/-- `BAPBlackboard.get_illufq_paths`. -/
def bb_get_illufq_paths (bb : BB) (dflt : Option BVal) : Option BVal :=
  bbGetD bb "bap/user_inputs/illumina_fqs" dflt

/-- Python truthiness on the values that reach `not ret`. -/
def pyFalsy : BVal → Bool
  | .s v => v.data.isEmpty
  | .q v => v = 0
  | .l vs => vs.isEmpty
  | .res rs => rs.isEmpty

/-- `ServiceExecution.get_contigs_path`: the assembled contigs path,
else the user-supplied contigs path, else the default, else an error. -/
def get_contigs_path (bb : BB) (dflt : Option BVal) : Except String BVal :=
  match bb_get_assembled_contigs_path bb (bb_get_user_contigs_path bb dflt) with
  | none => .error "no contigs file was provided or produced"
  | some v => .ok v

/-- Python `ret if isinstance(ret, list) else [ret]`. -/
def asPyList : BVal → List BVal
  | .l vs => vs.map BVal.s
  | v => [v]

/-- `ServiceExecution.get_illufq_or_contigs_paths`: the Illumina
fastqs, else the contigs chain with `[]` as its default; raises only
when the result is falsy and no default was supplied. -/
def get_illufq_or_contigs_paths (bb : BB) (dflt : Option BVal) : Except String (List BVal) := do
  let contigs ← get_contigs_path bb (some (.l []))
  let ret := (bbGetOpt bb "bap/user_inputs/illumina_fqs").getD contigs
  if pyFalsy ret ∧ dflt = none then
    .error "no Illumina reads or contigs files were provided"
  else
    .ok (asPyList ret)

/-! ## Task lifecycle (`ServiceExecution`), §4.1

`Task` (from `pico.workflow.executor`) and `Job` (from
`pico.jobcontrol.job`) are external collaborators; their state enums
and the effect of `Task._transition` (set `self.state` and
`self.error`, per the comment in `ServiceExecution._transition`) are
modelled from the spec.  Wall-clock timestamps are embedded as a
rational `now` parameter. -/

/-- Modelled from the spec: `Task.State`. -/
inductive TState where
  | STARTED
  | DONE
  | FAILED
deriving DecidableEq, Repr

/-- Modelled from the spec: `Task.State.value` status strings. -/
def TState.value : TState → String
  | .STARTED => "STARTED"
  | .DONE => "DONE"
  | .FAILED => "FAILED"

/-- Modelled from the spec: `Job.State` of the external scheduler. -/
inductive JState where
  | RUNNING
  | COMPLETED
  | FAILED
deriving DecidableEq, Repr

/-- The in-memory side of a `ServiceExecution` together with the store
it writes to. -/
structure Exec where
  sid : String
  state : TState
  error : Option String
  bb : BB
deriving DecidableEq, Repr

/-- `ServiceExecution.put_run_info`. -/
def put_run_info (e : Exec) (path : String) (v : BVal) : Exec :=
  { e with bb := bbPut e.bb ("services/" ++ e.sid ++ "/run_info/" ++ path) v }

/-- `ServiceExecution.get_run_info`. -/
def get_run_info (e : Exec) (path : String) : Option BVal :=
  bbGetOpt e.bb ("services/" ++ e.sid ++ "/run_info/" ++ path)

/-- `ServiceExecution.add_error`. -/
def add_error (e : Exec) (msg : String) : Exec :=
  { e with bb := bbAppend e.bb ("services/" ++ e.sid ++ "/errors") msg }

/-- `ServiceExecution._transition`: the superclass sets `state` and
`error`; then timestamps, the status string, and (on failure) the
error list are written to the store. -/
def x_transition (now : ℚ) (e : Exec) (new_state : TState) (err : Option String) : Exec :=
  let e := { e with state := new_state, error := err }
  let e :=
    if new_state = TState.STARTED then
      put_run_info e "time/start" (.q now)
    else
      let start := match get_run_info e "time/start" with
        | some (.q t) => t
        | _ => 0
      put_run_info (put_run_info e "time/duration" (.q (now - start))) "time/end" (.q now)
  let e := put_run_info e "status" (.s new_state.value)
  if new_state = TState.FAILED then add_error e (e.error.getD "") else e

/-- Modelled from the spec: `Task.fail(reason)`, an explicit terminal
transition (via the overridden `_transition`). -/
def x_fail (now : ℚ) (e : Exec) (msg : String) : Exec :=
  x_transition now e TState.FAILED (some msg)

/-- Modelled from the spec: `Task.done()`, an explicit terminal
transition (via the overridden `_transition`). -/
def x_done (now : ℚ) (e : Exec) : Exec :=
  x_transition now e TState.DONE none

/-- `ServiceExecution.report`: if the outward state is still STARTED,
check the job; a completed job triggers output collection then DONE
(unless collection failed the execution), a failed job triggers
FAILED; otherwise nothing happens.  Returns the state alongside the
resulting execution (the Python method mutates `self`). -/
def report (now : ℚ) (collect : Exec → Exec) (job : JState) (jobError : String)
    (e : Exec) : TState × Exec :=
  if e.state = TState.STARTED then
    match job with
    | .COMPLETED =>
      let e := collect e
      if e.state ≠ TState.FAILED then
        let e := x_done now e
        (e.state, e)
      else
        (e.state, e)
    | .FAILED =>
      let e := x_fail now e jobError
      (e.state, e)
    | .RUNNING => (e.state, e)
  else
    (e.state, e)

/-! ## `PlasmidFinderExecution.collect_output` (normalization loops) -/

/-- Inner hit loop for one requested database: builds the canonical
hits in encounter order while pushing each detected plasmid into the
pipeline summary (deduplicated). -/
def collect_hits (grp db : String) (hits_in : List RawHit) (bb : BB) :
    List OutHit × BB :=
  hits_in.foldl
    (fun acc h => (acc.1 ++ [mkHit grp db h], add_detected_plasmid acc.2 h.plasmid))
    ([], bb)

/-- Body of the `for db in dbs` loop: collect the (sorted) hits of one
requested database and append its entry to `dbs_out`. -/
def collect_db_step (res : RawRes) (g : String) (a : List DbRes × BB) (db : String) :
    List DbRes × BB :=
  let (hits, bb2) := collect_hits g db (raw_db_hits res g db) a.2
  (a.1 ++ [{ database := db, hits := sortHits hits }], bb2)

/-- Body of the `for grp, dbs in search_dict.items()` loop: run the
inner database loop and append the group's entry to `res_out`. -/
def collect_grp_step (res : RawRes) (acc : List GroupRes × BB) (gp : String × List String) :
    List GroupRes × BB :=
  let inner := gp.2.foldl (collect_db_step res gp.1) ([], acc.2)
  (acc.1 ++ [{ group := gp.1, searches := inner.1 }], inner.2)

/-- The deconvolution loops of `collect_output` (lines building
`res_out`): one entry per requested group, one per requested database,
hits sorted by descending quality. -/
def collect_results (search : List (String × List String)) (res : RawRes) (bb : BB) :
    List GroupRes × BB :=
  search.foldl (collect_grp_step res) ([], bb)

/-- The entry `collect_output` produces for one requested database:
its canonical hits in raw encounter order, sorted by descending
quality. -/
def normDb (res : RawRes) (g db : String) : DbRes :=
  { database := db, hits := sortHits ((raw_db_hits res g db).map (mkHit g db)) }

/-- Spec §8 example hit with coverage 100.0 and identity 90.0
(quality 90.0); listed first in the raw input. -/
def rawHit900 : RawHit :=
  { plasmid := "IncFIB", hit_id := "c1:10..110:IncFIB:90", contig_name := "c1"
    positions_in_contig := "10..110", accession := "AX900", template_length := 100
    position_in_ref := "1..100", HSP_length := 100, coverage := 100, identity := 90
    note := "" }

/-- Spec §8 example hit with coverage 95.0 and identity 98.0
(quality 93.1); listed second in the raw input. -/
def rawHit931 : RawHit :=
  { plasmid := "IncX3", hit_id := "c2:5..100:IncX3:93", contig_name := "c2"
    positions_in_contig := "5..100", accession := "AX931", template_length := 100
    position_in_ref := "1..96", HSP_length := 96, coverage := 95, identity := 98
    note := "" }

/-- A raw `results` element holding the two spec-example hits for the
requested pair `("g", "d")`, lower-quality hit first. -/
def exRes : RawRes :=
  .dict [("g", .dict [("d", .dict [("h900", rawHit900), ("h931", rawHit931)])])]

/-- The normalized entry expected for `("g", "d")` on `exRes`. -/
def exDbRes : DbRes :=
  { database := "d", hits := [mkHit "g" "d" rawHit931, mkHit "g" "d" rawHit900] }

/-- The normalized group entry expected for `exRes`. -/
def exGroupRes : GroupRes :=
  { group := "g", searches := [exDbRes] }

/-- `collect_output` from the point where the JSON has been loaded:
a missing `plasmidfinder/results` element fails the execution, else
the deconvolved results are stored under `services/<sid>/results`.
(The file I/O of lines 89–99 is outside the embedding.) -/
def collect_output (now : ℚ) (search : List (String × List String))
    (res_in : Option RawRes) (e : Exec) : Exec :=
  match res_in with
  | none => x_fail now e "no plasmidfinder/results element in data.json"
  | some res =>
    let (out, bb) := collect_results search res e.bb
    { e with bb := bbPut bb ("services/" ++ e.sid ++ "/results") (.res out) }

/-! ## Association-list lemmas -/

theorem dictGetOpt_not_mem {d : List (String × α)} {k : String}
    (h : k ∉ d.map Prod.fst) : dictGetOpt d k = none := by
  induction d with
  | nil => rfl
  | cons p rest ih =>
    simp only [List.map_cons, List.mem_cons, not_or] at h
    have hne : ¬(p.1 = k) := fun he => h.1 he.symm
    simp only [dictGetOpt, if_neg hne]
    exact ih h.2

theorem dictGetOpt_of_mem_nodup {d : List (String × α)}
    (hn : (d.map Prod.fst).Nodup) {k : String} {v : α} (h : (k, v) ∈ d) :
    dictGetOpt d k = some v := by
  induction d with
  | nil => cases h
  | cons p rest ih =>
    simp only [List.map_cons, List.nodup_cons] at hn
    rcases List.mem_cons.mp h with h1 | h1
    · subst h1; simp [dictGetOpt]
    · have hne : p.1 ≠ k := by
        intro he
        exact hn.1 (he ▸ List.mem_map_of_mem Prod.fst h1)
      simp only [dictGetOpt, if_neg hne]
      exact ih hn.2 h1

theorem dictSet_not_mem {d : List (String × α)} {k : String} (v : α)
    (h : k ∉ d.map Prod.fst) : dictSet d k v = d ++ [(k, v)] := by
  induction d with
  | nil => rfl
  | cons p rest ih =>
    simp only [List.map_cons, List.mem_cons, not_or] at h
    have hne : ¬(p.1 = k) := fun he => h.1 he.symm
    simp only [dictSet, if_neg hne, List.cons_append, List.cons.injEq, true_and]
    exact ih h.2

theorem keys_dictSet_mem {d : List (String × α)} {k : String} (v : α)
    (h : k ∈ d.map Prod.fst) : (dictSet d k v).map Prod.fst = d.map Prod.fst := by
  induction d with
  | nil => cases h
  | cons p rest ih =>
    by_cases he : p.1 = k
    · simp [dictSet, he]
    · simp only [List.map_cons, List.mem_cons] at h
      rcases h with h1 | h1
      · exact absurd h1.symm he
      · simp only [dictSet, if_neg he, List.map_cons, ih h1]

/-- All database names of a config, in group order. -/
def joinVals (d : Config) : List String := (d.map Prod.snd).flatten

theorem joinVals_dictSet_perm (gd : Config) (k v : String) :
    List.Perm (joinVals (dictSet gd k (dictGetD gd k [] ++ [v]))) (v :: joinVals gd) := by
  induction gd with
  | nil => simp [joinVals, dictSet, dictGetD, dictGetOpt]
  | cons p rest ih =>
    by_cases he : p.1 = k
    · subst he
      simp [dictGetD, dictGetOpt, dictSet, joinVals, List.append_assoc]
    · simp only [dictGetD, dictGetOpt, if_neg he, dictSet]
      simp only [joinVals, List.map_cons, List.flatten_cons]
      exact (List.Perm.append_left p.2 ih).trans List.perm_middle

/-! ## Invariants established by `parse_config` -/

/-- Success of the parse loop guarantees: group keys are distinct, and
no database name occurs twice anywhere in the config (nor clashes with
an already-seen name). -/
theorem parse_lines_ok_inv :
    ∀ (lines : List String) (gd : Config) (dbs : List String) (cfg : Config),
    parse_lines lines gd dbs = .ok cfg →
    (gd.map Prod.fst).Nodup → (joinVals gd).Nodup →
    (∀ x ∈ joinVals gd, x ∈ dbs) → dbs.Nodup →
    (cfg.map Prod.fst).Nodup ∧ (joinVals cfg).Nodup := by
  intro lines
  induction lines with
  | nil =>
    intro gd dbs cfg h h1 h2 _ _
    cases h
    exact ⟨h1, h2⟩
  | cons l rest ih =>
    intro gd dbs cfg h h1 h2 h3 h4
    simp only [parse_lines] at h
    split at h
    · exact ih gd dbs cfg h h1 h2 h3 h4
    · split at h
      · cases h
      · split at h
        · cases h
        · rename_i hskip r3 hdb
          set t := pyStrip l with ht
          set r := pySplitTab t with hr
          set db := pyStrip (r.headD "") with hdbdef
          set grp := pyStrip ((r.drop 1).headD "") with hgrp
          refine ih _ _ cfg h ?_ ?_ ?_ ?_
          · by_cases hmem : grp ∈ gd.map Prod.fst
            · rw [keys_dictSet_mem _ hmem]; exact h1
            · rw [dictSet_not_mem _ hmem]
              simp only [List.map_append, List.map_cons, List.map_nil]
              rw [List.nodup_append]
              exact ⟨h1, List.nodup_singleton _, by
                simp only [List.disjoint_singleton]
                exact hmem⟩
          · have hp := joinVals_dictSet_perm gd grp db
            rw [hp.nodup_iff]
            refine List.nodup_cons.mpr ⟨?_, h2⟩
            intro hin
            exact hdb (h3 db hin)
          · intro x hx
            have hp := joinVals_dictSet_perm gd grp db
            rcases List.mem_cons.mp (hp.mem_iff.mp hx) with h5 | h5
            · subst h5; simp
            · exact List.mem_append_left _ (h3 x h5)
          · rw [List.nodup_append]
            exact ⟨h4, List.nodup_singleton _, by
              simp only [List.disjoint_singleton]
              exact hdb⟩

/-- Success of the parse loop means the database names contributed by
the content lines are pairwise distinct and fresh w.r.t. `dbs`. -/
theorem parse_lines_ok_entries :
    ∀ (lines : List String) (gd : Config) (dbs : List String) (cfg : Config),
    parse_lines lines gd dbs = .ok cfg →
    ((lines.filterMap line_entry).map Prod.fst).Nodup ∧
    ∀ d ∈ (lines.filterMap line_entry).map Prod.fst, d ∉ dbs := by
  intro lines
  induction lines with
  | nil =>
    intro gd dbs cfg _
    exact ⟨List.nodup_nil, by simp⟩
  | cons l rest ih =>
    intro gd dbs cfg h
    simp only [parse_lines] at h
    split at h
    · rename_i hskip
      have hle : line_entry l = none := by
        simp only [line_entry, if_pos hskip]
      simpa only [List.filterMap_cons, hle] using ih gd dbs cfg h
    · rename_i hskip
      split at h
      · cases h
      · rename_i r3
        split at h
        · cases h
        · rename_i hdb
          have hle : line_entry l =
              some (pyStrip ((pySplitTab (pyStrip l)).headD ""),
                pyStrip (((pySplitTab (pyStrip l)).drop 1).headD "")) := by
            simp only [line_entry, if_neg hskip, if_neg r3]
          have := ih _ _ cfg h
          simp only [List.filterMap_cons, hle, List.map_cons, List.nodup_cons]
          refine ⟨⟨?_, this.1⟩, ?_⟩
          · intro hin
            have := this.2 _ hin
            simp at this
          · intro d hd
            rcases List.mem_cons.mp hd with h5 | h5
            · subst h5; exact hdb
            · intro hmem
              exact (this.2 d h5) (List.mem_append_left _ hmem)

/-- Shared duplicate-rejection core: two content lines carrying the
same database name force `parse_config` to fail. -/
theorem parse_config_dup_error {lines : List String} {l1 l2 d g1 g2 : String}
    (hs : [l1, l2].Sublist lines)
    (h1 : line_entry l1 = some (d, g1)) (h2 : line_entry l2 = some (d, g2)) :
    ∃ e, parse_config lines = .error e := by
  cases hp : parse_config lines with
  | error e => exact ⟨e, rfl⟩
  | ok cfg =>
    exfalso
    have hn := (parse_lines_ok_entries lines [] [] cfg hp).1
    have hsub : [d, d].Sublist ((lines.filterMap line_entry).map Prod.fst) := by
      have hfm := hs.filterMap line_entry
      simp only [List.filterMap_cons, h1, h2, List.filterMap_nil] at hfm
      simpa using hfm.map Prod.fst
    have := hn.sublist hsub
    simp at this

/-! ## Claim theorems: config resolver (C5, C6, C7, C8, C9) -/

theorem str_data_append (a b : String) : (a ++ b).data = a.data ++ b.data := rfl

/-- C9: `parse_config` rejects any repeated database name, even when
both occurrences fall under the same group: whenever two content lines
of the config file carry the same database name — whatever their
groups — parsing fails with a configuration error. -/
theorem c9_parse_config_rejects_repeated_db {lines : List String} {l1 l2 d g1 g2 : String}
    (hs : [l1, l2].Sublist lines)
    (h1 : line_entry l1 = some (d, g1)) (h2 : line_entry l2 = some (d, g2)) :
    ∃ e, parse_config lines = .error e :=
  parse_config_dup_error hs h1 h2

/-- C9 witness: a config repeating `db1` inside the single group
`grpA` is rejected. -/
theorem c9_witness :
    line_entry "db1\tgrpA\tx" = some ("db1", "grpA") ∧
    ∃ e, parse_config ["db1\tgrpA\tx", "db1\tgrpA\ty"] = .error e :=
  ⟨rfl, c9_parse_config_rejects_repeated_db (List.Sublist.refl _) rfl rfl⟩

/-- C5: a database name appearing under two different groups makes
`parse_config` fail with a configuration error; the error carries no
partial `Config` (the `Except` is an `error`, not an `ok`). -/
theorem c5_parse_config_rejects_cross_group_db {lines : List String} {l1 l2 d g1 g2 : String}
    (hs : [l1, l2].Sublist lines)
    (h1 : line_entry l1 = some (d, g1)) (h2 : line_entry l2 = some (d, g2))
    (_hg : g1 ≠ g2) :
    ∃ e, parse_config lines = .error e :=
  parse_config_dup_error hs h1 h2

/-- C5 witness: `db1` under both `grpA` and `grpB` is rejected. -/
theorem c5_witness :
    ("grpA" : String) ≠ "grpB" ∧
    ∃ e, parse_config ["db1\tgrpA\tx", "db1\tgrpB\ty"] = .error e :=
  ⟨by decide, c5_parse_config_rejects_cross_group_db (List.Sublist.refl _) rfl rfl (by decide)⟩

theorem dedup_foldl_of_nodup :
    ∀ (dbs cur : List String), dbs.Nodup → (∀ x ∈ dbs, x ∉ cur) →
    dbs.foldl (fun c db => if db ∈ c then c else c ++ [db]) cur = cur ++ dbs := by
  intro dbs
  induction dbs with
  | nil => intro cur _ _; simp
  | cons d ds ih =>
    intro cur hn hf
    have hd : d ∉ cur := hf d (List.mem_cons_self d ds)
    simp only [List.foldl_cons, if_neg hd]
    rw [ih (cur ++ [d]) (List.nodup_cons.mp hn).2]
    · simp
    · intro x hx
      simp only [List.mem_append, List.mem_singleton, not_or]
      exact ⟨hf x (List.mem_cons_of_mem _ hx),
        fun he => (List.nodup_cons.mp hn).1 (he ▸ hx)⟩

theorem fd_loop_all_keys :
    ∀ (cfg sub acc : Config),
    (∀ p ∈ sub, dictGetOpt cfg p.1 = some p.2 ∧ p.2.Nodup) →
    (sub.map Prod.fst).Nodup →
    (∀ k ∈ sub.map Prod.fst, k ∉ acc.map Prod.fst) →
    fd_loop cfg (sub.map Prod.fst) acc = .ok (acc ++ sub) := by
  intro cfg sub
  induction sub with
  | nil => intro acc _ _ _; simp [fd_loop]
  | cons p sub' ih =>
    intro acc hp hn hk
    obtain ⟨hget, hnd⟩ := hp p (List.mem_cons_self p sub')
    have hknotin : p.1 ∉ acc.map Prod.fst :=
      hk p.1 (by simp)
    have hcur : dictGetD acc p.1 [] = [] := by
      simp [dictGetD, dictGetOpt_not_mem hknotin]
    simp only [List.map_cons, fd_loop, find_database, hget, hcur]
    rw [dedup_foldl_of_nodup p.2 [] hnd (by simp)]
    rw [dictSet_not_mem _ hknotin]
    simp only [List.nil_append]
    rw [ih (acc ++ [(p.1, p.2)]) (fun q hq => hp q (List.mem_cons_of_mem _ hq))
      ((List.nodup_cons.mp hn).2) ?_]
    · simp
    · intro k hkmem
      simp only [List.map_append, List.map_cons, List.map_nil, List.mem_append,
        List.mem_singleton, not_or]
      refine ⟨fun hmem => hk k (List.mem_cons_of_mem _ hkmem) hmem, ?_⟩
      intro he
      exact (List.nodup_cons.mp hn).1 (he ▸ hkmem)

/-- C6: on a config produced by a successful `parse_config`, resolving
the empty request list returns every group with exactly the databases
it owns, and no database name occurs twice anywhere in the result. -/
theorem c6_find_databases_empty_request (lines : List String) (cfg : Config)
    (h : parse_config lines = .ok cfg) :
    find_databases cfg [] = .ok cfg ∧ (joinVals cfg).Nodup := by
  obtain ⟨hkeys, hjoin⟩ := parse_lines_ok_inv lines [] [] cfg h
    List.nodup_nil (by simp [joinVals]) (by simp [joinVals]) List.nodup_nil
  refine ⟨?_, hjoin⟩
  have hdbnodup : ∀ p ∈ cfg, p.2.Nodup := by
    intro p hp
    have := (List.nodup_flatten.mp hjoin).1
    exact this p.2 (List.mem_map_of_mem Prod.snd hp)
  have := fd_loop_all_keys cfg cfg []
    (fun p hp => ⟨dictGetOpt_of_mem_nodup hkeys hp, hdbnodup p hp⟩)
    hkeys (by simp)
  simpa [find_databases] using this

/-- C6 witness at a concrete two-group config. -/
theorem c6_witness :
    parse_config ["db1\tgrpA\ta", "db3\tgrpB\tb"] =
      .ok [("grpA", ["db1"]), ("grpB", ["db3"])] ∧
    find_databases [("grpA", ["db1"]), ("grpB", ["db3"])] [] =
      .ok [("grpA", ["db1"]), ("grpB", ["db3"])] ∧
    (joinVals [("grpA", ["db1"]), ("grpB", ["db3"])]).Nodup :=
  ⟨rfl,
    (c6_find_databases_empty_request ["db1\tgrpA\ta", "db3\tgrpB\tb"]
      [("grpA", ["db1"]), ("grpB", ["db3"])] rfl).1,
    (c6_find_databases_empty_request ["db1\tgrpA\ta", "db3\tgrpB\tb"]
      [("grpA", ["db1"]), ("grpB", ["db3"])] rfl).2⟩

/-- C7: `find_database` resolves a requested name first as a group
(all its databases), else as a database under its owning group;
`find_databases` merges per group with per-group deduplication in
request order — and on the spec's example config, resolving
`["grpA", "db3"]` yields exactly `{grpA: [db1, db2], grpB: [db3]}`. -/
theorem c7_resolution_order_and_example :
    (∀ (cfg : Config) (name : String) (dbs : List String),
      dictGetOpt cfg name = some dbs → find_database cfg name = .ok (name, dbs)) ∧
    (∀ (cfg : Config) (name : String) (p : String × List String),
      dictGetOpt cfg name = none → cfg.find? (fun q => q.2.contains name) = some p →
      find_database cfg name = .ok (p.1, [name])) ∧
    parse_config ["db1\tgrpA\tdesc1", "db2\tgrpA\tdesc2", "db3\tgrpB\tdesc3"] =
      .ok [("grpA", ["db1", "db2"]), ("grpB", ["db3"])] ∧
    find_databases [("grpA", ["db1", "db2"]), ("grpB", ["db3"])] ["grpA", "db3"] =
      .ok [("grpA", ["db1", "db2"]), ("grpB", ["db3"])] := by
  refine ⟨?_, ?_, rfl, rfl⟩
  · intro cfg name dbs h
    simp only [find_database, h]
  · intro cfg name p h1 h2
    simp only [find_database, h1, h2]

/-- C7 witness: the group branch applied at the example config. -/
theorem c7_witness :
    find_database [("grpA", ["db1", "db2"]), ("grpB", ["db3"])] "grpA" =
      .ok ("grpA", ["db1", "db2"]) :=
  c7_resolution_order_and_example.1 _ "grpA" _ rfl

theorem substr_self (a : String) : substrOf a a :=
  ⟨[], [], by simp⟩

theorem substr_appendR (a b c : String) (h : substrOf a b) : substrOf a (b ++ c) := by
  obtain ⟨s, t, hst⟩ := h
  exact ⟨s, t ++ c.data, by
    rw [str_data_append, ← hst]
    simp [List.append_assoc]⟩

theorem substr_appendL (a b c : String) (h : substrOf a c) : substrOf a (b ++ c) := by
  obtain ⟨s, t, hst⟩ := h
  exact ⟨b.data ++ s, t, by
    rw [str_data_append, ← hst]
    simp [List.append_assoc]⟩

theorem substr_join {db : String} : ∀ {v : List String}, db ∈ v → substrOf db (pyJoin ", " v) := by
  intro v
  induction v with
  | nil => intro h; cases h
  | cons x xs ih =>
    intro h
    rcases List.mem_cons.mp h with h1 | h1
    · subst h1
      cases xs with
      | nil => exact substr_self db
      | cons y ys =>
        show substrOf db (db ++ ", " ++ pyJoin ", " (y :: ys))
        exact substr_appendR _ _ _ (substr_appendR _ _ _ (substr_self db))
    · cases xs with
      | nil => cases h1
      | cons y ys =>
        show substrOf db (x ++ ", " ++ pyJoin ", " (y :: ys))
        exact substr_appendL _ _ _ (ih h1)

theorem pretty_enumerates :
    ∀ (cfg : Config), ∀ p ∈ cfg, substrOf p.1 (pretty_list_groups cfg) ∧
      ∀ db ∈ p.2, substrOf db (pretty_list_groups cfg) := by
  intro cfg
  induction cfg with
  | nil => intro p hp; cases hp
  | cons q rest ih =>
    intro p hp
    have hunf : pretty_list_groups (q :: rest) =
        q.1 ++ " (" ++ pyJoin ", " q.2 ++ ");" ++ pretty_list_groups rest := rfl
    rcases List.mem_cons.mp hp with h1 | h1
    · subst h1
      rw [hunf]
      constructor
      · exact substr_appendR _ _ _ (substr_appendR _ _ _
          (substr_appendR _ _ _ (substr_appendR _ _ _ (substr_self p.1))))
      · intro db hdb
        exact substr_appendR _ _ _ (substr_appendR _ _ _
          (substr_appendL _ _ _ (substr_join hdb)))
    · rw [hunf]
      constructor
      · exact substr_appendL _ _ _ ((ih p h1).1)
      · intro db hdb
        exact substr_appendL _ _ _ ((ih p h1).2 db hdb)

/-- C8: a requested name that is neither a group nor a database of any
group makes `find_database` fail, and the error message enumerates
every known group and every database it owns. -/
theorem c8_find_database_unknown (cfg : Config) (name : String)
    (h1 : dictGetOpt cfg name = none)
    (h2 : cfg.find? (fun p => p.2.contains name) = none) :
    find_database cfg name = .error ("unknown group or database: " ++ name
        ++ "; available are: " ++ pretty_list_groups cfg) ∧
    ∀ p ∈ cfg, substrOf p.1 (pretty_list_groups cfg) ∧
      ∀ db ∈ p.2, substrOf db (pretty_list_groups cfg) := by
  refine ⟨?_, pretty_enumerates cfg⟩
  simp only [find_database, h1, h2]

/-- C8 witness at a one-group config and an unknown name. -/
theorem c8_witness :
    find_database [("grpA", ["db1"])] "zzz" =
      .error ("unknown group or database: " ++ "zzz" ++ "; available are: "
        ++ pretty_list_groups [("grpA", ["db1"])]) :=
  (c8_find_database_unknown [("grpA", ["db1"])] "zzz" rfl rfl).1

/-! ## Claim theorems: input resolution chains (C1, C10) -/

/-- C1 counterexample: on a store carrying both a user-supplied
contigs path (`user.fa`) and an internally assembled one (`asm.fa`),
`get_contigs_path` returns the assembled path, not the user-supplied
one the claim promises. -/
theorem c1_counterexample :
    get_contigs_path
      [("bap/user_inputs/contigs", BVal.s "user.fa"), ("bap/summary/contigs", BVal.s "asm.fa")]
      none = .ok (BVal.s "asm.fa") ∧
    (Except.ok (BVal.s "asm.fa") : Except String BVal) ≠ .ok (BVal.s "user.fa") :=
  ⟨rfl, by simp⟩

/-- C1 (amended): in the contigs Input Resolution Chain the internally
assembled contigs path has the higher priority: whenever it is present
`get_contigs_path` returns it, regardless of whether a user-supplied
path is also present; the user-supplied path is returned exactly when
it is present and no assembled path exists. -/
theorem c1_amended_assembled_over_user (bb : BB) (dflt : Option BVal) :
    (∀ v, bbGetOpt bb "bap/summary/contigs" = some v →
      get_contigs_path bb dflt = .ok v) ∧
    (∀ u, bbGetOpt bb "bap/summary/contigs" = none →
      bbGetOpt bb "bap/user_inputs/contigs" = some u →
      get_contigs_path bb dflt = .ok u) := by
  constructor
  · intro v hv
    simp only [get_contigs_path, bb_get_assembled_contigs_path, bb_get_user_contigs_path,
      bbGetD, hv]
  · intro u ha hu
    simp only [get_contigs_path, bb_get_assembled_contigs_path, bb_get_user_contigs_path,
      bbGetD, ha, hu]

/-- C1 witness: the amended priority applied at the counterexample
store. -/
theorem c1_amended_witness :
    get_contigs_path
      [("bap/user_inputs/contigs", BVal.s "user.fa"), ("bap/summary/contigs", BVal.s "asm.fa")]
      none = .ok (BVal.s "asm.fa") :=
  (c1_amended_assembled_over_user
    [("bap/user_inputs/contigs", BVal.s "user.fa"), ("bap/summary/contigs", BVal.s "asm.fa")]
    none).1 (BVal.s "asm.fa") rfl

/-- C10: with a non-`None` default supplied and neither Illumina
fastqs nor any contigs path on the store,
`get_illufq_or_contigs_paths` returns the empty list: the default only
suppresses the exception, its value is never returned. -/
theorem c10_returns_empty_not_default (bb : BB) (dflt : Option BVal)
    (hf : bbGetOpt bb "bap/user_inputs/illumina_fqs" = none)
    (hu : bbGetOpt bb "bap/user_inputs/contigs" = none)
    (ha : bbGetOpt bb "bap/summary/contigs" = none)
    (hd : dflt ≠ none) :
    get_illufq_or_contigs_paths bb dflt = .ok [] := by
  simp only [get_illufq_or_contigs_paths, get_contigs_path, bb_get_assembled_contigs_path,
    bb_get_user_contigs_path, bbGetD, hf, hu, ha]
  simp [pyFalsy, asPyList, hd]
  rfl

/-- C10 witness: the empty store with a string default. -/
theorem c10_witness :
    get_illufq_or_contigs_paths [] (some (BVal.s "fallback.fa")) = .ok [] :=
  c10_returns_empty_not_default [] (some (BVal.s "fallback.fa")) rfl rfl rfl (by simp)

/-! ## Claim theorems: task lifecycle (C2) -/

/-- C2: `report` on an execution already in a terminal state (DONE or
FAILED) returns that same state and leaves the execution — its store
included — completely unchanged; and `report` always returns exactly
the state of the execution it yields, so a state can leave STARTED at
most once, for one of the two terminal states, after which every
further `report` is a no-op. -/
theorem c2_report_terminal_frozen (now : ℚ) (collect : Exec → Exec) (job : JState)
    (jobError : String) (e : Exec) :
    ((e.state = TState.DONE ∨ e.state = TState.FAILED) →
      report now collect job jobError e = (e.state, e)) ∧
    (report now collect job jobError e).1 = (report now collect job jobError e).2.state := by
  constructor
  · intro h
    have hne : ¬(e.state = TState.STARTED) := by
      rcases h with h | h <;> simp [h]
    simp [report, hne]
  · by_cases hs : e.state = TState.STARTED
    · simp only [report, if_pos hs]
      cases job with
      | COMPLETED =>
        dsimp only
        split <;> rfl
      | FAILED => rfl
      | RUNNING => rfl
    · simp only [report, if_neg hs]

/-- C2 witness: polling a DONE execution changes nothing. -/
theorem c2_witness :
    report 0 id JState.RUNNING "" ⟨"svc", TState.DONE, none, []⟩ =
      (TState.DONE, ⟨"svc", TState.DONE, none, []⟩) :=
  (c2_report_terminal_frozen 0 id JState.RUNNING "" ⟨"svc", TState.DONE, none, []⟩).1
    (Or.inl rfl)

/-! ## Claim theorems: result normalization (C3, C4) -/

theorem collect_hits_foldl_fst (grp db : String) :
    ∀ (l : List RawHit) (a : List OutHit) (bb : BB),
    (l.foldl (fun acc h => (acc.1 ++ [mkHit grp db h], add_detected_plasmid acc.2 h.plasmid))
      (a, bb)).1 = a ++ l.map (mkHit grp db) := by
  intro l
  induction l with
  | nil => intro a bb; simp
  | cons h t ih =>
    intro a bb
    simp only [List.foldl_cons, List.map_cons]
    rw [ih]
    simp

theorem collect_hits_fst (grp db : String) (l : List RawHit) (bb : BB) :
    (collect_hits grp db l bb).1 = l.map (mkHit grp db) := by
  simpa [collect_hits] using collect_hits_foldl_fst grp db l [] bb

theorem collect_db_step_eq (res : RawRes) (g : String) (a : List DbRes × BB) (db : String) :
    collect_db_step res g a db =
      (a.1 ++ [normDb res g db], (collect_hits g db (raw_db_hits res g db) a.2).2) := by
  rw [collect_db_step]
  rcases hch : collect_hits g db (raw_db_hits res g db) a.2 with ⟨hits, bb2⟩
  have h1 := collect_hits_fst g db (raw_db_hits res g db) a.2
  rw [hch] at h1
  have h2 : hits = (raw_db_hits res g db).map (mkHit g db) := h1
  simp [normDb, h2]

theorem inner_fold_fst (res : RawRes) (g : String) :
    ∀ (dbs : List String) (a : List DbRes) (bb : BB),
    (dbs.foldl (collect_db_step res g) (a, bb)).1 = a ++ dbs.map (normDb res g) := by
  intro dbs
  induction dbs with
  | nil => intro a bb; simp
  | cons d ds ih =>
    intro a bb
    simp only [List.foldl_cons, List.map_cons, collect_db_step_eq]
    rw [ih]
    simp

theorem collect_grp_step_eq (res : RawRes) (acc : List GroupRes × BB)
    (gp : String × List String) :
    collect_grp_step res acc gp =
      (acc.1 ++ [{ group := gp.1, searches := gp.2.map (normDb res gp.1) }],
        (gp.2.foldl (collect_db_step res gp.1) ([], acc.2)).2) := by
  rw [collect_grp_step]
  rcases hif : gp.2.foldl (collect_db_step res gp.1) ([], acc.2) with ⟨inner1, bb2⟩
  have h1 := inner_fold_fst res gp.1 gp.2 [] acc.2
  rw [hif] at h1
  simp only [List.nil_append] at h1
  simp [h1]

theorem collect_results_fst (search : List (String × List String)) (res : RawRes) :
    ∀ (acc : List GroupRes) (bb : BB),
    (search.foldl (collect_grp_step res) (acc, bb)).1 =
      acc ++ search.map (fun gp => { group := gp.1, searches := gp.2.map (normDb res gp.1) }) := by
  induction search with
  | nil => intro acc bb; simp
  | cons gp rest ih =>
    intro acc bb
    simp only [List.foldl_cons, List.map_cons, collect_grp_step_eq]
    rw [ih]
    simp

theorem collect_results_shape (search : List (String × List String)) (res : RawRes)
    (bb : BB) :
    (collect_results search res bb).1 =
      search.map (fun gp => { group := gp.1, searches := gp.2.map (normDb res gp.1) }) := by
  simpa [collect_results] using collect_results_fst search res [] bb

/-- C3: normalization yields exactly one entry per requested group
and, inside it, one entry per requested database — the full requested
shape, hits or no hits — and the backend's non-dict "No hits found"
sentinel behaves exactly like an empty mapping. -/
theorem c3_entry_per_requested_pair (search : List (String × List String))
    (res : RawRes) (bb : BB) :
    ((collect_results search res bb).1.map
        (fun g => (g.group, g.searches.map DbRes.database))) = search ∧
    collect_results search RawRes.other bb = collect_results search (RawRes.dict []) bb := by
  constructor
  · have hpt : ((fun g : GroupRes => (g.group, g.searches.map DbRes.database)) ∘
        (fun gp : String × List String =>
          ({ group := gp.1, searches := gp.2.map (normDb res gp.1) } : GroupRes))) =
        fun gp => gp := by
      funext gp
      have hc : (DbRes.database ∘ normDb res gp.1) = fun db => db := rfl
      simp [Function.comp, List.map_map, hc]
    rw [collect_results_shape, List.map_map, hpt]
    simp
  · rfl

theorem filter_orderedInsert (q : ℚ) (a : OutHit) :
    ∀ s : List OutHit,
    (List.orderedInsert hitGE a s).filter (fun h => decide (h.quality = q)) =
      if a.quality = q then a :: s.filter (fun h => decide (h.quality = q))
      else s.filter (fun h => decide (h.quality = q)) := by
  intro s
  induction s with
  | nil =>
    by_cases haq : a.quality = q <;>
      simp [List.orderedInsert, List.filter, haq]
  | cons b bs ih =>
    by_cases hab : hitGE a b
    · simp only [List.orderedInsert, if_pos hab, List.filter_cons]
      by_cases haq : a.quality = q <;> simp [haq]
    · simp only [List.orderedInsert, if_neg hab, List.filter_cons]
      by_cases haq : a.quality = q
      · have hbq : ¬(b.quality = q) := by
          intro hb
          exact hab (show hitGE a b from le_of_eq (hb.trans haq.symm))
        simp [hbq, ih, haq]
      · by_cases hbq : b.quality = q <;> simp [hbq, ih, haq]

theorem sortHits_filter (q : ℚ) :
    ∀ l : List OutHit,
    (sortHits l).filter (fun h => decide (h.quality = q)) =
      l.filter (fun h => decide (h.quality = q)) := by
  intro l
  induction l with
  | nil => rfl
  | cons a t ih =>
    have hstep : sortHits (a :: t) = List.orderedInsert hitGE a (sortHits t) := rfl
    rw [hstep, filter_orderedInsert]
    by_cases haq : a.quality = q <;> simp [haq, List.filter_cons, ih]

/-- C4: within one requested database's normalized entry the hits are
pairwise non-increasing in quality, every hit's quality equals
`pct_cov * pct_ident / 100`, and every quality class appears in its
raw encounter order (stability of the sort); in particular the spec's
example — a hit with coverage 95.0 and identity 98.0 (quality 93.1)
and a hit with coverage 100.0 and identity 90.0 (quality 90.0),
encountered lower-quality-first — is normalized with the 93.1 hit
ranked first. -/
theorem c4_hits_sorted_stable :
    (∀ (search : List (String × List String)) (res : RawRes) (bb : BB),
      ∀ gr ∈ (collect_results search res bb).1, ∀ dbr ∈ gr.searches,
        dbr.hits.Pairwise hitGE ∧
        (∀ h ∈ dbr.hits, h.quality = h.pct_cov * h.pct_ident / 100) ∧
        (∀ q : ℚ, dbr.hits.filter (fun h => decide (h.quality = q)) =
          ((raw_db_hits res gr.group dbr.database).map
            (mkHit gr.group dbr.database)).filter (fun h => decide (h.quality = q)))) ∧
    (collect_results [("g", ["d"])] exRes []).1 =
      [{ group := "g",
         searches := [{ database := "d",
                        hits := [mkHit "g" "d" rawHit931, mkHit "g" "d" rawHit900] }] }] ∧
    (mkHit "g" "d" rawHit931).quality = 931 / 10 ∧
    (mkHit "g" "d" rawHit900).quality = 90 := by
  have hle : ¬ hitGE (mkHit "g" "d" rawHit900) (mkHit "g" "d" rawHit931) := by
    show ¬((mkHit "g" "d" rawHit931).quality ≤ (mkHit "g" "d" rawHit900).quality)
    have e1 : (mkHit "g" "d" rawHit931).quality = 95 * 98 / 100 := rfl
    have e2 : (mkHit "g" "d" rawHit900).quality = 100 * 90 / 100 := rfl
    rw [e1, e2]
    norm_num
  refine ⟨?_, ?_, ?_, ?_⟩
  · intro search res bb gr hgr dbr hdbr
    rw [collect_results_shape] at hgr
    obtain ⟨gp, _hgp, rfl⟩ := List.mem_map.mp hgr
    obtain ⟨db, _hdb, rfl⟩ := List.mem_map.mp hdbr
    refine ⟨List.sorted_insertionSort hitGE _, ?_, ?_⟩
    · intro h hh
      have hmem : h ∈ (raw_db_hits res gp.1 db).map (mkHit gp.1 db) :=
        (List.mem_insertionSort hitGE).mp hh
      obtain ⟨x, _hx, rfl⟩ := List.mem_map.mp hmem
      rfl
    · intro q
      exact sortHits_filter q _
  · have hsort : sortHits [mkHit "g" "d" rawHit900, mkHit "g" "d" rawHit931] =
        [mkHit "g" "d" rawHit931, mkHit "g" "d" rawHit900] := by
      simp only [sortHits, List.insertionSort, List.orderedInsert, if_neg hle]
    rw [collect_results_shape]
    simp only [List.map_cons, List.map_nil, normDb]
    rw [show raw_db_hits exRes "g" "d" = [rawHit900, rawHit931] from rfl]
    rw [show List.map (mkHit "g" "d") [rawHit900, rawHit931] =
      [mkHit "g" "d" rawHit900, mkHit "g" "d" rawHit931] from rfl]
    rw [hsort]
  · have e1 : (mkHit "g" "d" rawHit931).quality = 95 * 98 / 100 := rfl
    rw [e1]
    norm_num
  · have e2 : (mkHit "g" "d" rawHit900).quality = 100 * 90 / 100 := rfl
    rw [e2]
    norm_num

/-- C4 witness: the sortedness conclusion extracted at the concrete
spec example. -/
theorem c4_witness :
    List.Pairwise hitGE [mkHit "g" "d" rawHit931, mkHit "g" "d" rawHit900] := by
  have h := c4_hits_sorted_stable.1 [("g", ["d"])] exRes []
  have hex := c4_hits_sorted_stable.2.1
  have hgr : exGroupRes ∈ (collect_results [("g", ["d"])] exRes []).1 := by
    rw [hex]
    exact List.mem_singleton.mpr rfl
  have hdbr : exDbRes ∈ exGroupRes.searches := List.mem_singleton.mpr rfl
  exact (h exGroupRes hgr exDbRes hdbr).1
